import Mathlib

/-!
Shallow embedding of the line-scanner/parser core of `docu` (src/docu/__init__.py).

Source lines are modelled as `List Char` (one entry per physical line, without the
trailing newline: every line the Python generator `non_empty_lines` hands to the
parser has been `rstrip`-ped, so the newline never reaches the core).  The
Python regular expressions are desugared into explicit, executable character-list
functions, faithful to Python `re` backtracking semantics (greedy / lazy groups
are resolved in the order the engine tries them; the desugaring of each pattern
is documented at its definition).  `StopIteration` (iterator exhaustion, used by
the source as a control-flow signal) is modelled as `Except.error`; the
`UnboundLocalError` that `get_class` can hit (its local `docstring` is only
assigned inside the `try` block) is modelled as `PyErr.nameError`.
-/

/-- A source line / string, as a list of characters. -/
abbrev Str := List Char

/-- The single-quote character, `'`. -/
def sqc : Char := Char.ofNat 39

/-- The double-quote character, `"`. -/
def dqc : Char := Char.ofNat 34

/-- The triple-single-quote delimiter. -/
def tq1 : Str := [sqc, sqc, sqc]

/-- The triple-double-quote delimiter. -/
def tq2 : Str := [dqc, dqc, dqc]

/-- Characters stripped by Python `str.strip()` / `rstrip()` (whitespace). -/
def isSpaceCh (c : Char) : Bool :=
  c == ' ' || c == '\t' || c == '\n' || c == '\r'

/-- Python `s.rstrip()`. -/
def rstrip (s : Str) : Str := (s.reverse.dropWhile isSpaceCh).reverse

/-- Python `s.strip()`. -/
def pstrip (s : Str) : Str := rstrip (s.dropWhile isSpaceCh)

/-- The regex fragment `' *'`: skip a (maximal) run of space characters.
In every pattern of the source, `' *'` is followed by a non-space literal or
is final, so the greedy maximal match never backtracks. -/
def dropSpaces (s : Str) : Str := s.dropWhile (· == ' ')

/-- Python `line.split('#')[0]`: everything before the first `#`. -/
def takeUntilHash (s : Str) : Str := s.takeWhile (· != '#')

/-- Python `s[:len s - n]` (`s[:-n]` for nonempty results; clamps at `[]`). -/
def dropRightN (n : Nat) (l : Str) : Str := l.take (l.length - n)

/-- First character of `VALID_VAR = "([_A-Za-z][_a-zA-Z0-9]*)"`. -/
def isIdentStart (c : Char) : Bool := c == '_' || c.isAlpha

/-- Later characters of `VALID_VAR`. -/
def isIdentChar (c : Char) : Bool := c == '_' || c.isAlphanum

/-- Greedy match of `VALID_VAR` at the head of `s`: the maximal identifier
prefix (empty first component = no match) and the remainder. -/
def maxIdent : Str → Str × Str
  | [] => ([], [])
  | c :: cs =>
    if isIdentStart c then (c :: cs.takeWhile isIdentChar, cs.dropWhile isIdentChar)
    else ([], c :: cs)

/-- All candidate matches of a backtracking `VALID_VAR` at the head of `s`,
longest first (the order a greedy group is tried by the regex engine), each
paired with the corresponding remainder of `s`. -/
def identCandidates (s : Str) : List (Str × Str) :=
  let (v, r) := maxIdent s
  (List.range v.length).map fun k => (v.take (v.length - k), v.drop (v.length - k) ++ r)

/-- Is `s` one of the two triple-quote delimiters? (alternation `('''|\"\"\")`). -/
def isTriq (s : Str) : Bool := s == tq1 || s == tq2

/-- Does `s` end with a triple-quote delimiter? (the regex `('''|\"\"\")$`). -/
def endsTriq (s : Str) : Bool := tq1.isSuffixOf s || tq2.isSuffixOf s

/-- The regex prefix `'^ {indent}'`: exactly `indent` spaces, then the rest. -/
def stripIndent (indent : Nat) (line : Str) : Option Str :=
  if line.take indent = List.replicate indent ' ' then some (line.drop indent) else none

/-- Substring test (`pat` occurs somewhere in `hay`). -/
def containsSub : Str → Str → Bool
  | [], pat => pat.isEmpty
  | h :: t, pat => pat.isPrefixOf (h :: t) || containsSub t pat

/-- Python `','.split` on a string: `splitComma` mirrors `allargs.split(',')`
(`[] → [[]]`, separators kept out, empty pieces kept). -/
def splitComma : Str → List Str
  | [] => [[]]
  | c :: cs =>
    if c = ',' then [] :: splitComma cs
    else
      match splitComma cs with
      | t :: ts => (c :: t) :: ts
      | [] => [[c]]

/-- Lexicographic `≤` on strings by code point — the order Python `sorted`
uses for `str` values. -/
def strLe : Str → Str → Bool
  | [], _ => true
  | _ :: _, [] => false
  | a :: as_, b :: bs =>
    if a.toNat < b.toNat then true
    else if b.toNat < a.toNat then false
    else strLe as_ bs

/-- Stable ordered insert (the building block of a stable ascending sort,
matching Python's stable `sorted`): insert `a` before the first element it is
`le`-related to. -/
def ordIns {α : Type} (le : α → α → Bool) (a : α) : List α → List α
  | [] => [a]
  | b :: l => if le a b then a :: b :: l else b :: ordIns le a l

/-- Stable insertion sort, the model of Python `sorted`. -/
def inSort {α : Type} (le : α → α → Bool) : List α → List α
  | [] => []
  | a :: l => ordIns le a (inSort le l)

/-- `sorted(modules)` — plain string sort. -/
def sortStr (l : List Str) : List Str := inSort strLe l

/-- A module-level or class-level variable: `{'name': ..., 'value': ...}`. -/
structure Variable where
  name : Str
  value : Str
deriving DecidableEq, Repr

/-- The dictionary returned by `get_function`. -/
structure FunctionDict where
  name : Str
  args : List Str
  keywords : List Str
  defaults : List Str
  docstring : Str
  exceptions : List Str
deriving DecidableEq, Repr

/-- The dictionary returned by `get_class`. -/
structure ClassDict where
  name : Str
  inheritance : Str
  modules : List Str
  functions : List FunctionDict
  «variables» : List Variable
  docstring : Str
deriving DecidableEq, Repr

/-- The symbol tree assembled by `parse` (the module name, resolved from the
file system by the out-of-core locator code, is not part of the core model). -/
structure ModuleTree where
  description : Str
  version : Str
  modules : List Str
  «variables» : List Variable
  functions : List FunctionDict
  classes : List ClassDict
deriving DecidableEq, Repr

/-- `sorted(variables, key=itemgetter('name'))`. -/
def sortVars (l : List Variable) : List Variable :=
  inSort (fun a b => strLe a.name b.name) l

/-- `sorted(functions, key=itemgetter('name'))`. -/
def sortFuncs (l : List FunctionDict) : List FunctionDict :=
  inSort (fun a b => strLe a.name b.name) l

/-- `sorted(classes, key=itemgetter('name'))`. -/
def sortClasses (l : List ClassDict) : List ClassDict :=
  inSort (fun a b => strLe a.name b.name) l

/-- Python errors that can escape the core loop: `UnboundLocalError`
(a `NameError`) from `get_class` referencing its unassigned local `docstring`. -/
inductive PyErr where
  | nameError
deriving DecidableEq, Repr

/-- `get_indent`: the regex `'^( +)[^ ](.*)$'` — the count of leading spaces
when the line starts with at least one space and has a later non-space
character, and `0` otherwise. -/
def get_indent (line : Str) : Nat :=
  let k := (line.takeWhile (· == ' ')).length
  if 0 < k && k < line.length then k else 0

/-- Tail matcher for the first `get_module` pattern: `' *(as  *VALID_VAR)?$'`.
The remainder matches iff it is all spaces (optional group absent), or after
skipping spaces it is literally `as ` followed by spaces and a complete
identifier (the trailing `\w*` is greedy and must reach `$`). -/
def importTail1 (r : Str) : Bool :=
  if r.all (· == ' ') then true
  else
    let t := dropSpaces r
    if ("as ".toList).isPrefixOf t then
      let t2 := dropSpaces (t.drop 3)
      let (v, r2) := maxIdent t2
      !v.isEmpty && r2.isEmpty
    else false

/-- `get_module(line, indent)`: tries the source's four patterns in order.

1. `'^ {i}import VALID_VAR *(as  *VALID_VAR)?$'` — `VALID_VAR` is greedy but
   backtracks, so the candidate identifiers are tried longest first against
   the tail (`importTail1`);
2. `'^ {i}import VALID_VAR\..*? *(as  *VALID_VAR)?$'` — the lazy `.*?` can
   always consume up to `$` (the optional tail matches the empty remainder),
   so this pattern matches exactly when the maximal identifier after
   `import ` is followed by a literal dot;
3. `'^ {i}from VALID_VAR *import *.*$'` — backtracking identifier whose
   remainder, after spaces, starts with `import`;
4. `'^ {i}from VALID_VAR\..*? *import *.*$'` — maximal identifier followed by
   a dot, with `import` occurring anywhere later (the lazy `.*?` stops at any
   position whose remainder is spaces-then-`import`-then-anything). -/
def get_module (line : Str) (indent : Nat) : Option Str :=
  match stripIndent indent line with
  | none => none
  | some t =>
    if ("import ".toList).isPrefixOf t then
      let r := t.drop 7
      match (identCandidates r).find? (fun p => importTail1 p.2) with
      | some p => some p.1
      | none =>
        let (v, r2) := maxIdent r
        match r2 with
        | '.' :: _ => if !v.isEmpty then some v else none
        | _ => none
    else if ("from ".toList).isPrefixOf t then
      let r := t.drop 5
      match (identCandidates r).find?
          (fun p => ("import".toList).isPrefixOf (dropSpaces p.2)) with
      | some p => some p.1
      | none =>
        let (v, r2) := maxIdent r
        match r2 with
        | '.' :: w => if !v.isEmpty && containsSub w ("import".toList) then some v else none
        | _ => none
    else none

/-- Is `c` a single or double quote (the alternation `('|\")`)? -/
def isQuote (c : Char) : Bool := c == sqc || c == dqc

/-- `get_version(line, indent)`: the regex
`'^ {i}__version__ *= *('|\")(.*)('|\") *$'`.  The greedy `(.*)` makes the
closing quote the last non-space character of the line; the captured group is
everything between the first quote and that closing quote.  Returns `[]`
(Python `''`) when there is no match. -/
def get_version (line : Str) (indent : Nat) : Str :=
  match stripIndent indent line with
  | none => []
  | some t =>
    if ("__version__".toList).isPrefixOf t then
      match dropSpaces (t.drop 11) with
      | '=' :: r2 =>
        match dropSpaces r2 with
        | q :: body =>
          if isQuote q then
            let b2 := (body.reverse.dropWhile (· == ' ')).reverse
            match b2.reverse with
            | q2 :: rest2 => if isQuote q2 then rest2.reverse else []
            | [] => []
          else []
        | [] => []
      | _ => []
    else []

/-- `get_variable(line, indent)`: the regex `'^ {i}VALID_VAR *= *(.*)$'`
(after `.format`, the literal `}}` collapses to `}` closing the `{i}` count).
The identifier is maximal (identifier characters are disjoint from space and
`=`, so greedy never backtracks); the value is the rest of the line after the
maximal run of spaces following `=`. -/
def get_variable (line : Str) (indent : Nat) : Option Variable :=
  match stripIndent indent line with
  | none => none
  | some t =>
    let (v, r) := maxIdent t
    if v.isEmpty then none
    else
      match dropSpaces r with
      | '=' :: r2 => some ⟨v, dropSpaces r2⟩
      | _ => none

/-- `get_exception(line)`: the regex `'^ *raise (.*)\(.*\)$'`.  The greedy
`(.*)` captures up to the last `(` that still leaves the final character a
`)`; with no such `(`, or no final `)`, there is no match and Python's `''`
(here `[]`) is returned. -/
def get_exception (line : Str) : Str :=
  let t := line.dropWhile (· == ' ')
  if ("raise ".toList).isPrefixOf t then
    let r := t.drop 6
    match r.reverse with
    | ')' :: rr =>
      let a := rr.takeWhile (· != '(')
      if a.length == rr.length then [] else (rr.drop (a.length + 1)).reverse
    | _ => []
  else []

/-- The multi-line loop of `get_docstring` (source lines 171-180).  The close
test `re.search("('''|\"\"\")$", line)` runs on the raw current line.  On
close, `line[indent:-3]` is appended unless empty, then one more
`lines.next()` is issued (so a stream that ends exactly at the closing
delimiter still raises `StopIteration`).  Exhaustion at any `next` is
`.error ()`, discarding the accumulator, exactly as the uncaught exception
does in the source. -/
def ds_loop (indent : Nat) : Str → Str → List Str → Except Unit (Str × Str × List Str)
  | line, out, rest =>
    if endsTriq line then
      let seg := dropRightN 3 (line.drop indent)
      let out2 := if seg ≠ [] then out ++ '\n' :: seg else out
      match rest with
      | [] => .error ()
      | l :: ls => .ok (l, pstrip out2, ls)
    else
      let out2 := out ++ '\n' :: line.drop indent
      match rest with
      | [] => .error ()
      | l :: ls => ds_loop indent l out2 ls

/-- `get_docstring(line, lines, indent)`: opener regex
`'^ {i}('''|\"\"\")(.*?)('''|\"\"\")?$'`.  The lazy `(.*?)` grows until the
remainder is empty or exactly a triple-quote delimiter, so group 3 is present
iff the text after the opening delimiter ends in a delimiter; on that
one-line path the captured body is returned verbatim (source line 169 returns
`out` without `.strip()`).  Otherwise the multi-line loop accumulates lines
and the final return (line 181) strips the accumulator.  A non-matching line
returns itself with an empty docstring. -/
def get_docstring (line : Str) (lines : List Str) (indent : Nat) :
    Except Unit (Str × Str × List Str) :=
  match stripIndent indent line with
  | some t =>
    if isTriq (t.take 3) then
      let u := t.drop 3
      if endsTriq u then .ok (line, dropRightN 3 u, lines)
      else
        match lines with
        | [] => .error ()
        | l :: ls => ds_loop indent l u ls
    else .ok (line, [], lines)
  | none => .ok (line, [], lines)

/-- One step of the multi-line signature loop of `get_function`: the regex
`'^ *(.*?)(\):)?$'` always matches; group 1 is the line minus leading spaces
and minus a trailing `):` when one is present (group 2). -/
def contLine (l : Str) : Str × Bool :=
  let v := l.dropWhile (· == ' ')
  if [')', ':'].isSuffixOf v then (dropRightN 2 v, true) else (v, false)

/-- The `while not endpar` loop of `get_function` (source lines 204-209):
concatenate continuation lines until one carries the closing `):`.
Exhaustion raises (`.error`), uncaught by `get_function` itself. -/
def hdr_loop (allargs : Str) : List Str → Except Unit (Str × List Str)
  | [] => .error ()
  | l :: ls =>
    let (g1, ep) := contLine l
    if ep then .ok (allargs ++ g1, ls) else hdr_loop (allargs ++ g1) ls

/-- The argument-classification loop of `get_function` (source lines 218-227):
each comma-token is stripped, tested against `'^VALID_VAR$'` (positional) and
`'^VALID_VAR *= *(.*)$'` (keyword + verbatim default), appending in token
order.  Keywords and defaults are appended together in the same branch. -/
def classifyArgs : List Str → List Str × List Str × List Str
  | [] => ([], [], [])
  | tok :: rest =>
    let (as_, ks, ds) := classifyArgs rest
    let s := pstrip tok
    let (v, r) := maxIdent s
    let isArg := !v.isEmpty && r.isEmpty
    let kw : Option (Str × Str) :=
      if v.isEmpty then none
      else
        match dropSpaces r with
        | '=' :: r2 => some (v, dropSpaces r2)
        | _ => none
    ((if isArg then s :: as_ else as_),
     (match kw with | some (k, _) => k :: ks | none => ks),
     (match kw with | some (_, d) => d :: ds | none => ds))

/-- The exception-collecting loop of `get_function` (source lines 233-237).
The indent test looks at the current line, then the stream is advanced and
`get_exception` runs on the new line (so the line that ends the block is
still exception-tested before the loop re-checks it).  Exhaustion at the
`next` is caught by `get_function` (line 238): the line becomes `none` and
the exceptions collected so far are kept. -/
def exc_loop (ind0 : Nat) : Str → List Str → Str → List Str →
    Option Str × Str × List Str × List Str
  | line, rest, doc, excs =>
    if ind0 ≤ get_indent line then
      match rest with
      | [] => (none, doc, excs, [])
      | l :: ls =>
        let e := get_exception l
        exc_loop ind0 l ls doc (if e.isEmpty then excs else excs ++ [e])
    else (some line, doc, excs, rest)

/-- The body part of `get_function` (source lines 228-240, the `try` block):
fetch the next line, extract a docstring at its indentation, then run the
exception loop.  `StopIteration` anywhere here is caught: the line becomes
`none`, `docstring` keeps its initialised `''` when the extractor raised. -/
def body_scan : List Str → Option Str × Str × List Str × List Str
  | [] => (none, [], [], [])
  | l :: ls =>
    let ind0 := get_indent l
    match get_docstring l ls ind0 with
    | .error _ => (none, [], [], [])
    | .ok (l2, doc, ls2) => exc_loop ind0 l2 ls2 doc []

/-- `get_function(line, lines, indent)`: header regex
`'^ {i}def VALID_VAR\((.*?)(\):)?$'` (lazy group 2, so the argument text is
the text after `(` minus a trailing `):` when present, and the whole
remainder otherwise, triggering the multi-line signature loop).  Returns
`(line-or-None, function-dict-or-None, remaining-stream)`; `.error` is a
`StopIteration` escaping from the header-continuation loop. -/
def get_function (line : Str) (lines : List Str) (indent : Nat) :
    Except Unit (Option Str × Option FunctionDict × List Str) :=
  match stripIndent indent line with
  | none => .ok (some line, none, lines)
  | some t =>
    if ("def ".toList).isPrefixOf t then
      let (name, r) := maxIdent (t.drop 4)
      if name.isEmpty then .ok (some line, none, lines)
      else
        match r with
        | '(' :: u =>
          let hdr : Except Unit (Str × List Str) :=
            if [')', ':'].isSuffixOf u then .ok (dropRightN 2 u, lines)
            else hdr_loop u lines
          match hdr with
          | .error e => .error e
          | .ok (allargs, rest) =>
            let (as_, ks, ds) := classifyArgs (splitComma allargs)
            let (lopt, doc, excs, rest2) := body_scan rest
            .ok (lopt, some ⟨name, as_, ks, ds, doc, excs⟩, rest2)
        | _ => .ok (some line, none, lines)
    else .ok (some line, none, lines)

/-- The class-body loop of `get_class` (source lines 282-304).  Runs while the
current line's indentation is at least the body indentation, trying imported
module, then variable, then method; after a successful method parse the
returned line is discarded and the stream advanced again (source line 299).
Normal exit (dedent) sorts the three collections (lines 302-304);
`StopIteration` anywhere in the loop — including one escaping `get_function`
— is caught at line 305, the line becomes `none` and the sorts are skipped.
The fuel argument only bounds recursion; the callers pass more fuel than the
loop can consume (each iteration removes at least one line from the stream),
so the `0` branch — modelled like a mid-loop stream stop — is unreachable. -/
def cls_loop : Nat → Str → List Str → Nat → List Str → List Variable →
    List FunctionDict → Option Str × List Str × List Variable × List FunctionDict × List Str
  | 0, line, rest, ind0, mods, vars, funcs =>
    if ind0 ≤ get_indent line then (none, mods, vars, funcs, [])
    else (some line, sortStr mods, sortVars vars, sortFuncs funcs, rest)
  | fuel + 1, line, rest, ind0, mods, vars, funcs =>
    if ind0 ≤ get_indent line then
      match get_module line ind0 with
      | some m =>
        match rest with
        | [] => (none, mods ++ [m], vars, funcs, [])
        | l :: ls => cls_loop fuel l ls ind0 (mods ++ [m]) vars funcs
      | none =>
        match get_variable line ind0 with
        | some v =>
          match rest with
          | [] => (none, mods, vars ++ [v], funcs, [])
          | l :: ls => cls_loop fuel l ls ind0 mods (vars ++ [v]) funcs
        | none =>
          match get_function line rest ind0 with
          | .error _ => (none, mods, vars, funcs, [])
          | .ok (_, some f, rest2) =>
            match rest2 with
            | [] => (none, mods, vars, funcs ++ [f], [])
            | l :: ls => cls_loop fuel l ls ind0 mods vars (funcs ++ [f])
          | .ok (_, none, _) =>
            match rest with
            | [] => (none, mods, vars, funcs, [])
            | l :: ls => cls_loop fuel l ls ind0 mods vars funcs
    else (some line, sortStr mods, sortVars vars, sortFuncs funcs, rest)

/-- `get_class(line, lines, indent)`: header regex
`'^ {i}class VALID_VAR\((.*)\):$'`.  After the header, the first body line is
fetched and a docstring extracted at its indentation; if the stream is
exhausted before the local `docstring` is assigned (first `next` raises, or
the extractor raises), the `except StopIteration` handler falls through to
the `return` which reads the never-assigned `docstring` — an
`UnboundLocalError`, modelled as `.error .nameError`. -/
def get_class (line : Str) (lines : List Str) (indent : Nat) :
    Except PyErr (Option Str × Option ClassDict × List Str) :=
  match stripIndent indent line with
  | none => .ok (some line, none, lines)
  | some t =>
    if ("class ".toList).isPrefixOf t then
      let (name, r) := maxIdent (t.drop 6)
      if name.isEmpty then .ok (some line, none, lines)
      else
        match r with
        | '(' :: u =>
          if [')', ':'].isSuffixOf u then
            let inh := dropRightN 2 u
            match lines with
            | [] => .error .nameError
            | l :: ls =>
              let ind0 := get_indent l
              match get_docstring l ls ind0 with
              | .error _ => .error .nameError
              | .ok (l2, doc, ls2) =>
                let (lopt, mods, vars, funcs, rest2) :=
                  cls_loop (ls2.length + 1) l2 ls2 ind0 [] [] []
                .ok (lopt, some ⟨name, inh, mods, funcs, vars, doc⟩, rest2)
          else .ok (some line, none, lines)
        | _ => .ok (some line, none, lines)
    else .ok (some line, none, lines)

/-- `non_empty_lines(fil)`: the block-scanner generator.  Outside a docstring,
the opener pattern `'^ *('''|\"\"\")(.*?)('''|\"\"\")?$'` classifies the line
(one-line docstring: state unchanged; opener without close: enter docstring
state and yield the line `rstrip`-ped raw); inside, the close test runs on
the comment-stripped, `rstrip`-ped line.  A line emitted outside a docstring
is comment-stripped and `rstrip`-ped, and suppressed when empty. -/
def non_empty_lines : Bool → List Str → List Str
  | _, [] => []
  | true, line :: rest =>
    let line2 := rstrip (takeUntilHash line)
    if endsTriq line2 then
      (if line2.isEmpty then [] else [line2]) ++ non_empty_lines false rest
    else rstrip line :: non_empty_lines true rest
  | false, line :: rest =>
    let t := dropSpaces line
    if isTriq (t.take 3) && !endsTriq (t.drop 3) then
      rstrip line :: non_empty_lines true rest
    else
      let l2 := rstrip (takeUntilHash line)
      (if l2.isEmpty then [] else [l2]) ++ non_empty_lines false rest

/-- The scan loop of `parse` (source lines 732-766), over the already-cleaned
line stream, with the current line as a sentinel option (`None` = the
exhaustion sentinel handed back by `get_function` / `get_class`).  Priority
order: import, version, variable, function, class.  On normal exit
(`line == None`) the four collections are sorted (lines 763-766); when the
stream is exhausted at a direct `lines.next()` inside the loop, or a
`StopIteration` escapes `get_function`'s header loop, the `except` at line
768 is reached and the sorts are skipped.  A `nameError` from `get_class` is
not caught and propagates.  The fuel argument only bounds recursion; callers
pass more fuel than the loop can consume (every recursive call either drops a
line from the stream or hands over the `none` sentinel, which returns
immediately), so the fuel-0 branch — modelled like a mid-loop stream stop —
is unreachable. -/
def ploop : Nat → Option Str → List Str → Str → List Str → List Variable →
    List FunctionDict → List ClassDict →
    Except PyErr (Str × List Str × List Variable × List FunctionDict × List ClassDict)
  | _, none, _, ver, mods, vars, funcs, clss =>
    .ok (ver, sortStr mods, sortVars vars, sortFuncs funcs, sortClasses clss)
  | 0, some _, _, ver, mods, vars, funcs, clss =>
    .ok (ver, mods, vars, funcs, clss)
  | fuel + 1, some line, rest, ver, mods, vars, funcs, clss =>
    match get_module line 0 with
    | some m =>
      match rest with
      | [] => .ok (ver, mods ++ [m], vars, funcs, clss)
      | l :: ls => ploop fuel (some l) ls ver (mods ++ [m]) vars funcs clss
    | none =>
      let vrs := get_version line 0
      if !vrs.isEmpty then
        match rest with
        | [] => .ok (vrs, mods, vars, funcs, clss)
        | l :: ls => ploop fuel (some l) ls vrs mods vars funcs clss
      else
        match get_variable line 0 with
        | some v =>
          match rest with
          | [] => .ok (ver, mods, vars ++ [v], funcs, clss)
          | l :: ls => ploop fuel (some l) ls ver mods (vars ++ [v]) funcs clss
        | none =>
          match get_function line rest 0 with
          | .error _ => .ok (ver, mods, vars, funcs, clss)
          | .ok (lopt, some f, rest2) =>
            ploop fuel lopt rest2 ver mods vars (funcs ++ [f]) clss
          | .ok (_, none, _) =>
            match get_class line rest 0 with
            | .error e => .error e
            | .ok (lopt, some c, rest2) =>
              ploop fuel lopt rest2 ver mods vars funcs (clss ++ [c])
            | .ok (_, none, _) =>
              match rest with
              | [] => .ok (ver, mods, vars, funcs, clss)
              | l :: ls => ploop fuel (some l) ls ver mods vars funcs clss

/-- The core of `parse` (source lines 720-774), over the raw text given as a
list of lines: clean the stream, extract the leading docstring into
`description` (left `''` when that extraction raises), run the scan loop, and
assemble the tree. -/
def parse (raw : List Str) : Except PyErr ModuleTree :=
  let lines := non_empty_lines false raw
  match lines with
  | [] => .ok ⟨[], [], [], [], [], []⟩
  | l :: ls =>
    match get_docstring l ls 0 with
    | .error _ => .ok ⟨[], [], [], [], [], []⟩
    | .ok (line, desc, rest) =>
      match ploop (lines.length + 1) (some line) rest [] [] [] [] [] with
      | .error e => .error e
      | .ok (ver, mods, vars, funcs, clss) => .ok ⟨desc, ver, mods, vars, funcs, clss⟩

/-- `' '*(indent+4)` — the leading whitespace of generated docstring lines. -/
def wspaceN (indent : Nat) : Str := List.replicate (indent + 4) ' '

/-- The argument placeholder line `'    {arg} (): .\n'` (with `wspace`). -/
def argLine (indent : Nat) (arg : Str) : Str :=
  wspaceN indent ++ ("    ".toList ++ arg ++ " (): .\n".toList)

/-- The keyword placeholder line
`'    {kwd} (, optional): . Defaults to {default}. \n'` (with `wspace`). -/
def kwLine (indent : Nat) (p : Str × Str) : Str :=
  wspaceN indent ++ ("    ".toList ++ p.1 ++ " (, optional): . Defaults to ".toList
    ++ p.2 ++ ". \n".toList)

/-- The raised-exception placeholder line `'    {exc}\n'` (with `wspace`). -/
def excLine (indent : Nat) (exc : Str) : Str :=
  wspaceN indent ++ ("    ".toList ++ exc ++ "\n".toList)

/-- The lines yielded by `_make_function_docstring` for an undocumented
function (source lines 866-883): opening delimiter, two blank lines, `Args:`
with each positional parameter other than `self` and each keyword parameter
with its default, `Returns:`, `Raises:` with each collected exception, and
the closing delimiter. -/
def mk_fd_lines (func : FunctionDict) (indent : Nat) : List Str :=
  [wspaceN indent ++ (tq1 ++ "\n".toList), "\n".toList, "\n".toList,
   wspaceN indent ++ "Args:\n".toList]
  ++ (func.args.filter (fun a => a ≠ "self".toList)).map (argLine indent)
  ++ (func.keywords.zip func.defaults).map (kwLine indent)
  ++ ["\n".toList, wspaceN indent ++ "Returns:\n".toList, "\n".toList,
      wspaceN indent ++ "Raises:\n".toList]
  ++ func.exceptions.map (excLine indent)
  ++ [wspaceN indent ++ (tq1 ++ "\n".toList)]

/-- The warning text printed for an already-documented function
(source lines 863-864). -/
def warnMsg (name : Str) : Str :=
  "Warning: the function ".toList ++ [dqc] ++ name ++ [dqc]
    ++ " already has a docstring".toList

/-- `_make_function_docstring(func, indent, verbose)`: yields nothing and
(when verbose) prints the warning if the function already has a docstring;
otherwise yields the placeholder block.  Modelled as the pair
(yielded lines, optional warning text). -/
def mkFunctionDocstringGen (func : FunctionDict) (indent : Nat) (verbose : Bool) :
    List Str × Option Str :=
  if func.docstring ≠ [] then
    ([], if verbose then some (warnMsg func.name) else none)
  else (mk_fd_lines func indent, none)

/-- `make_function_docstring(func, indent, verbose)`: the concatenation of
the yielded lines. -/
def make_function_docstring (func : FunctionDict) (indent : Nat) (verbose : Bool) : Str :=
  (mkFunctionDocstringGen func indent verbose).1.flatten

/-! ## Helper lemmas -/

/-- `strLe` is total. -/
theorem strLe_total (a b : Str) : strLe a b = true ∨ strLe b a = true := by
  induction a generalizing b with
  | nil => exact Or.inl rfl
  | cons c cs ih =>
    cases b with
    | nil => exact Or.inr rfl
    | cons d ds =>
      by_cases h1 : c.toNat < d.toNat
      · left; simp [strLe, h1]
      · by_cases h2 : d.toNat < c.toNat
        · right; simp [strLe, h2]
        · rcases ih ds with h | h
          · left; simp [strLe, h1, h2, h]
          · right; simp [strLe, h1, h2, h]

/-- `strLe` is transitive. -/
theorem strLe_trans (a b c : Str) (h1 : strLe a b = true) (h2 : strLe b c = true) :
    strLe a c = true := by
  induction a generalizing b c with
  | nil => rfl
  | cons x xs ih =>
    cases b with
    | nil => simp [strLe] at h1
    | cons y ys =>
      cases c with
      | nil => simp [strLe] at h2
      | cons z zs =>
        simp only [strLe] at h1 h2 ⊢
        by_cases hxy : x.toNat < y.toNat
        · by_cases hyz : y.toNat < z.toNat
          · have hxz : x.toNat < z.toNat := by omega
            simp [hxz]
          · rw [if_neg hyz] at h2
            by_cases hzy : z.toNat < y.toNat
            · rw [if_pos hzy] at h2; exact absurd h2 (by simp)
            · have hxz : x.toNat < z.toNat := by omega
              simp [hxz]
        · rw [if_neg hxy] at h1
          by_cases hyx : y.toNat < x.toNat
          · rw [if_pos hyx] at h1; exact absurd h1 (by simp)
          · rw [if_neg hyx] at h1
            by_cases hyz : y.toNat < z.toNat
            · have hxz : x.toNat < z.toNat := by omega
              simp [hxz]
            · rw [if_neg hyz] at h2
              by_cases hzy : z.toNat < y.toNat
              · rw [if_pos hzy] at h2; exact absurd h2 (by simp)
              · rw [if_neg hzy] at h2
                have h3 := ih ys zs h1 h2
                have hxz : ¬ x.toNat < z.toNat := by omega
                have hzx : ¬ z.toNat < x.toNat := by omega
                simp [hxz, hzx, h3]

/-- Members of an ordered insert. -/
theorem mem_ordIns {α : Type} (le : α → α → Bool) (a x : α) :
    ∀ l : List α, x ∈ ordIns le a l → x = a ∨ x ∈ l := by
  intro l
  induction l with
  | nil => intro h; simp [ordIns] at h; exact Or.inl h
  | cons b bl ih =>
    intro h
    simp only [ordIns] at h
    by_cases hab : le a b = true
    · rw [if_pos hab] at h
      rcases List.mem_cons.mp h with h | h
      · exact Or.inl h
      · exact Or.inr h
    · rw [if_neg hab] at h
      rcases List.mem_cons.mp h with h | h
      · exact Or.inr (h ▸ List.mem_cons_self b bl)
      · rcases ih h with h | h
        · exact Or.inl h
        · exact Or.inr (List.mem_cons_of_mem b h)

/-- Ordered insert preserves pairwise sortedness (for a total transitive `le`). -/
theorem pairwise_ordIns {α : Type} (le : α → α → Bool)
    (htot : ∀ a b, le a b = true ∨ le b a = true)
    (htr : ∀ a b c, le a b = true → le b c = true → le a c = true)
    (a : α) :
    ∀ l : List α, l.Pairwise (fun x y => le x y = true) →
      (ordIns le a l).Pairwise (fun x y => le x y = true) := by
  intro l
  induction l with
  | nil => intro _; simp [ordIns]
  | cons b bl ih =>
    intro h
    rcases List.pairwise_cons.mp h with ⟨hb, hbl⟩
    by_cases hab : le a b = true
    · simp only [ordIns, if_pos hab]
      refine List.pairwise_cons.mpr ⟨?_, h⟩
      intro y hy
      rcases List.mem_cons.mp hy with hy | hy
      · exact hy ▸ hab
      · exact htr a b y hab (hb y hy)
    · have hba : le b a = true := (htot a b).resolve_left hab
      simp only [ordIns, if_neg hab]
      refine List.pairwise_cons.mpr ⟨?_, ih hbl⟩
      intro y hy
      rcases mem_ordIns le a y bl hy with hy | hy
      · exact hy ▸ hba
      · exact hb y hy

/-- The stable insertion sort produces a pairwise-sorted list. -/
theorem pairwise_inSort {α : Type} (le : α → α → Bool)
    (htot : ∀ a b, le a b = true ∨ le b a = true)
    (htr : ∀ a b c, le a b = true → le b c = true → le a c = true) :
    ∀ l : List α, (inSort le l).Pairwise (fun x y => le x y = true) := by
  intro l
  induction l with
  | nil => simp [inSort]
  | cons a l ih => exact pairwise_ordIns le htot htr a (inSort le l) ih

/-- `sortStr` output is sorted. -/
theorem sortStr_pairwise (l : List Str) :
    (sortStr l).Pairwise (fun a b => strLe a b = true) :=
  pairwise_inSort strLe strLe_total strLe_trans l

/-- `sortVars` output is sorted by name. -/
theorem sortVars_pairwise (l : List Variable) :
    (sortVars l).Pairwise (fun a b => strLe a.name b.name = true) :=
  pairwise_inSort _ (fun a b => strLe_total a.name b.name)
    (fun a b c => strLe_trans a.name b.name c.name) l

/-- `sortFuncs` output is sorted by name. -/
theorem sortFuncs_pairwise (l : List FunctionDict) :
    (sortFuncs l).Pairwise (fun a b => strLe a.name b.name = true) :=
  pairwise_inSort _ (fun a b => strLe_total a.name b.name)
    (fun a b c => strLe_trans a.name b.name c.name) l

/-- `sortClasses` output is sorted by name. -/
theorem sortClasses_pairwise (l : List ClassDict) :
    (sortClasses l).Pairwise (fun a b => strLe a.name b.name = true) :=
  pairwise_inSort _ (fun a b => strLe_total a.name b.name)
    (fun a b c => strLe_trans a.name b.name c.name) l

theorem cls_loop_zero (line : Str) (rest : List Str) (ind0 : Nat) (mods : List Str)
    (vars : List Variable) (funcs : List FunctionDict) :
    cls_loop 0 line rest ind0 mods vars funcs =
      if ind0 ≤ get_indent line then (none, mods, vars, funcs, [])
      else (some line, sortStr mods, sortVars vars, sortFuncs funcs, rest) := rfl

theorem cls_loop_succ (fuel : Nat) (line : Str) (rest : List Str) (ind0 : Nat)
    (mods : List Str) (vars : List Variable) (funcs : List FunctionDict) :
    cls_loop (fuel + 1) line rest ind0 mods vars funcs =
      if ind0 ≤ get_indent line then
        match get_module line ind0 with
        | some m =>
          match rest with
          | [] => (none, mods ++ [m], vars, funcs, [])
          | l :: ls => cls_loop fuel l ls ind0 (mods ++ [m]) vars funcs
        | none =>
          match get_variable line ind0 with
          | some v =>
            match rest with
            | [] => (none, mods, vars ++ [v], funcs, [])
            | l :: ls => cls_loop fuel l ls ind0 mods (vars ++ [v]) funcs
          | none =>
            match get_function line rest ind0 with
            | .error _ => (none, mods, vars, funcs, [])
            | .ok (_, some f, rest2) =>
              match rest2 with
              | [] => (none, mods, vars, funcs ++ [f], [])
              | l :: ls => cls_loop fuel l ls ind0 mods vars (funcs ++ [f])
            | .ok (_, none, _) =>
              match rest with
              | [] => (none, mods, vars, funcs, [])
              | l :: ls => cls_loop fuel l ls ind0 mods vars funcs
      else (some line, sortStr mods, sortVars vars, sortFuncs funcs, rest) := rfl

theorem cls_loop_sorted :
    ∀ (fuel : Nat) (line : Str) (rest : List Str) (ind0 : Nat)
      (mods : List Str) (vars : List Variable) (funcs : List FunctionDict)
      (l2 : Str) (M : List Str) (V : List Variable) (F : List FunctionDict) (R : List Str),
      cls_loop fuel line rest ind0 mods vars funcs = (some l2, M, V, F, R) →
      M.Pairwise (fun a b => strLe a b = true) ∧
      V.Pairwise (fun a b => strLe a.name b.name = true) ∧
      F.Pairwise (fun a b => strLe a.name b.name = true) := by
  intro fuel
  induction fuel with
  | zero =>
    intro line rest ind0 mods vars funcs l2 M V F R h
    rw [cls_loop_zero] at h
    split at h
    · simp at h
    · simp only [Prod.mk.injEq] at h
      obtain ⟨-, hM, hV, hF, -⟩ := h
      exact ⟨hM ▸ sortStr_pairwise mods, hV ▸ sortVars_pairwise vars,
        hF ▸ sortFuncs_pairwise funcs⟩
  | succ n ih =>
    intro line rest ind0 mods vars funcs l2 M V F R h
    rw [cls_loop_succ] at h
    split at h
    · cases hm : get_module line ind0 with
      | some m =>
        simp only [hm] at h
        cases rest with
        | nil => simp at h
        | cons l ls => exact ih l ls ind0 (mods ++ [m]) vars funcs l2 M V F R h
      | none =>
        simp only [hm] at h
        cases hv : get_variable line ind0 with
        | some v =>
          simp only [hv] at h
          cases rest with
          | nil => simp at h
          | cons l ls => exact ih l ls ind0 mods (vars ++ [v]) funcs l2 M V F R h
        | none =>
          simp only [hv] at h
          cases hf : get_function line rest ind0 with
          | error e => simp only [hf] at h; simp at h
          | ok p =>
            obtain ⟨lo, fo, rest2⟩ := p
            cases fo with
            | some f =>
              simp only [hf] at h
              cases rest2 with
              | nil => simp at h
              | cons l ls => exact ih l ls ind0 mods vars (funcs ++ [f]) l2 M V F R h
            | none =>
              simp only [hf] at h
              cases rest with
              | nil => simp at h
              | cons l ls => exact ih l ls ind0 mods vars funcs l2 M V F R h
    · simp only [Prod.mk.injEq] at h
      obtain ⟨-, hM, hV, hF, -⟩ := h
      exact ⟨hM ▸ sortStr_pairwise mods, hV ▸ sortVars_pairwise vars,
        hF ▸ sortFuncs_pairwise funcs⟩

/-! ## Claim theorems -/

set_option maxRecDepth 10000 in
/-- C1: parsing the six-line scenario text
`"""desc"""` / `__version__ = "2.0"` / `import re` / `def foo():` /
four-space-indented `'''doc'''` / four-space-indented `pass`
yields the ModuleSymbolTree with description `desc`, version `2.0`, imports
`["re"]`, exactly one function `foo` with no positional parameters, no
keyword parameters, docstring `doc` and no raised-exception identifiers, and
no variables and no classes. -/
theorem spec_c1 :
    parse ["\"\"\"desc\"\"\"".toList, "__version__ = \"2.0\"".toList,
      "import re".toList, "def foo():".toList,
      "    ".toList ++ tq1 ++ "doc".toList ++ tq1, "    pass".toList] =
    .ok ⟨"desc".toList, "2.0".toList, ["re".toList], [],
      [⟨"foo".toList, [], [], [], "doc".toList, []⟩], []⟩ := by
  rfl

set_option maxRecDepth 10000 in
/-- C2 counterexample: on the two-line input `import zlib` / `import abc` the
stream is exhausted at the `lines.next()` directly after the second import is
appended, so the `except StopIteration` handler of `parse` skips the
`sorted` calls (source lines 763-768) and the returned imports list
`["zlib", "abc"]` is not alphabetically sorted — refuting the claim that the
collections of every returned tree are sorted. -/
theorem spec_c2_counterexample :
    parse ["import zlib".toList, "import abc".toList] =
      .ok ⟨[], [], ["zlib".toList, "abc".toList], [], [], []⟩ ∧
    ¬ ["zlib".toList, "abc".toList].Pairwise (fun a b => strLe a b = true) :=
  ⟨by rfl, by decide⟩

/-- C2 (amended): the four collections of the tree built by `parse`'s scan
loop are stable-sorted (imports lexicographically, the others by name) when
the loop exits normally through the exhaustion sentinel handed back by the
function/class parsers; and every ClassSymbol that `get_class` returns
together with a non-sentinel current line (i.e. whose body scan ended at a
dedent rather than at stream exhaustion) has its imports, variables and
methods sorted.  (When the stream is exhausted at a direct line-advance, the
sorts are skipped and the collections stay in discovery order.) -/
theorem spec_c2_amended :
    (∀ (fuel : Nat) (rest : List Str) (ver : Str) (mods : List Str)
       (vars : List Variable) (funcs : List FunctionDict) (clss : List ClassDict),
       ploop fuel none rest ver mods vars funcs clss =
         .ok (ver, sortStr mods, sortVars vars, sortFuncs funcs, sortClasses clss) ∧
       (sortStr mods).Pairwise (fun a b => strLe a b = true) ∧
       (sortVars vars).Pairwise (fun a b => strLe a.name b.name = true) ∧
       (sortFuncs funcs).Pairwise (fun a b => strLe a.name b.name = true) ∧
       (sortClasses clss).Pairwise (fun a b => strLe a.name b.name = true)) ∧
    (∀ (line : Str) (lines : List Str) (indent : Nat) (l2 : Str) (cd : ClassDict)
       (rest2 : List Str),
       get_class line lines indent = .ok (some l2, some cd, rest2) →
       cd.modules.Pairwise (fun a b => strLe a b = true) ∧
       cd.variables.Pairwise (fun a b => strLe a.name b.name = true) ∧
       cd.functions.Pairwise (fun a b => strLe a.name b.name = true)) := by
  constructor
  · intro fuel rest ver mods vars funcs clss
    exact ⟨by cases fuel <;> rfl, sortStr_pairwise mods, sortVars_pairwise vars,
      sortFuncs_pairwise funcs, sortClasses_pairwise clss⟩
  · intro line lines indent l2 cd rest2 h
    unfold get_class at h
    split at h <;> try (solve | (exfalso; simp at h))
    split at h <;> try (solve | (exfalso; simp at h))
    split at h <;> try (solve | (exfalso; simp at h))
    split at h <;> try (solve | (exfalso; simp at h))
    split at h <;> try (solve | (exfalso; simp at h))
    split at h <;> try (solve | (exfalso; simp at h))
    split at h <;> try (solve | (exfalso; simp at h))
    rename_i l ls
    cases hgd : get_docstring l ls (get_indent l) with
    | error e => simp only [hgd] at h; exact absurd h (by simp)
    | ok p =>
      obtain ⟨l3, doc, ls2⟩ := p
      simp only [hgd] at h
      rcases hcls : cls_loop (ls2.length + 1) l3 ls2 (get_indent l) [] [] []
        with ⟨lopt, M, V, F, R⟩
      simp only [hcls, Except.ok.injEq, Prod.mk.injEq, Option.some.injEq] at h
      obtain ⟨hl, hcd, hr2⟩ := h
      subst hcd
      have hres := cls_loop_sorted (ls2.length + 1) l3 ls2 (get_indent l) [] [] []
        l2 M V F R (by rw [hcls, hl])
      exact ⟨hres.1, hres.2.1, hres.2.2⟩

/-- Witness for C2 (amended): a concrete class whose body scan ends at a
dedented line, instantiating the `get_class` part of the theorem. -/
theorem spec_c2_amended_witness :
    (ClassDict.mk "C".toList "x".toList [] [] [⟨"y".toList, "1".toList⟩] []).modules.Pairwise
      (fun a b => strLe a b = true) ∧
    (ClassDict.mk "C".toList "x".toList [] [] [⟨"y".toList, "1".toList⟩] []).variables.Pairwise
      (fun a b => strLe a.name b.name = true) ∧
    (ClassDict.mk "C".toList "x".toList [] [] [⟨"y".toList, "1".toList⟩] []).functions.Pairwise
      (fun a b => strLe a.name b.name = true) :=
  spec_c2_amended.2 "class C(x):".toList ["    y = 1".toList, "done = 2".toList] 0
    "done = 2".toList (ClassDict.mk "C".toList "x".toList [] [] [⟨"y".toList, "1".toList⟩] [])
    [] (by rfl)

theorem takeWhile_all {p : Char → Bool} :
    ∀ l : Str, (∀ c ∈ l, p c = true) → l.takeWhile p = l := by
  intro l h
  induction l with
  | nil => rfl
  | cons c cs ih =>
    rw [List.takeWhile_cons, h c (List.mem_cons_self c cs)]
    simp only [if_true]
    rw [ih (fun x hx => h x (List.mem_cons_of_mem c hx))]

theorem rstrip_append_nonspace (xs : Str) (c : Char) (h : isSpaceCh c = false) :
    rstrip (xs ++ [c]) = xs ++ [c] := by
  unfold rstrip
  rw [List.reverse_append]
  simp only [List.reverse_cons, List.reverse_nil, List.nil_append, List.singleton_append]
  rw [List.dropWhile_cons]
  simp [h]

/-- C3 (amended): for every source text whose first line is a one-line
module-level triple-quoted docstring `<delim>body<delim>` (no `#` in the
body — the block scanner would truncate it as a comment), the description of
any tree `parse` returns is the inner text with the delimiters removed but
NOT whitespace-trimmed: the one-line return path of `get_docstring` (source
line 169) returns the captured group verbatim, without the `.strip()` that
the multi-line path (line 181) applies. -/
theorem spec_c3_amended (q : Char) (body : Str) (rest : List Str) (t : ModuleTree)
    (hq : q = sqc ∨ q = dqc) (hbody : ∀ c ∈ body, c ≠ '#')
    (hp : parse (([q, q, q] ++ body ++ [q, q, q]) :: rest) = .ok t) :
    t.description = body := by
  have hq_space : (q == ' ') = false := by rcases hq with h | h <;> subst h <;> decide
  have hq_hash : (q != '#') = true := by rcases hq with h | h <;> subst h <;> decide
  have hq_ws : isSpaceCh q = false := by rcases hq with h | h <;> subst h <;> decide
  have htq : isTriq [q, q, q] = true := by rcases hq with h | h <;> subst h <;> decide
  set line : Str := [q, q, q] ++ body ++ [q, q, q] with hline
  have h3 : (3 : Nat) = ([q, q, q] : Str).length := rfl
  have htake : line.take 3 = [q, q, q] := by
    rw [hline, List.append_assoc, h3, List.take_left]
  have hdrop : line.drop 3 = body ++ [q, q, q] := by
    rw [hline, List.append_assoc, h3, List.drop_left]
  have hends : endsTriq (body ++ [q, q, q]) = true := by
    rcases hq with h | h <;> subst h
    · show (List.isSuffixOf tq1 (body ++ tq1) || List.isSuffixOf tq2 (body ++ tq1)) = true
      rw [List.isSuffixOf_iff_suffix.mpr (List.suffix_append body tq1)]
      rfl
    · show (List.isSuffixOf tq1 (body ++ tq2) || List.isSuffixOf tq2 (body ++ tq2)) = true
      rw [List.isSuffixOf_iff_suffix.mpr (List.suffix_append body tq2)]
      simp
  have hlineall : ∀ c ∈ line, (c != '#') = true := by
    intro c hc
    have hcq : c = q ∨ c ∈ body := by
      rw [hline] at hc
      rcases List.mem_append.mp hc with hc | hc
      · rcases List.mem_append.mp hc with hc | hc
        · left; simpa using hc
        · right; exact hc
      · left; simpa using hc
    rcases hcq with hcq | hcq
    · subst hcq; exact hq_hash
    · have := hbody c hcq
      simpa using this
  have hhash : takeUntilHash line = line := takeWhile_all line hlineall
  have hrstrip : rstrip line = line := by
    have hsplit : line = ([q, q, q] ++ body ++ [q, q]) ++ [q] := by
      rw [hline]; simp [List.append_assoc]
    rw [hsplit]
    exact rstrip_append_nonspace _ q hq_ws
  have hds : dropSpaces line = line := by
    rw [hline]
    show List.dropWhile (fun c => c == ' ') (q :: (q :: q :: (body ++ [q, q, q]))) = _
    rw [List.dropWhile_cons]
    simp [hq_space]
  have hnel : non_empty_lines false (line :: rest) = line :: non_empty_lines false rest := by
    show (if isTriq ((dropSpaces line).take 3) && !endsTriq ((dropSpaces line).drop 3) then
        rstrip line :: non_empty_lines true rest
      else
        (if (rstrip (takeUntilHash line)).isEmpty then [] else [rstrip (takeUntilHash line)])
          ++ non_empty_lines false rest) = line :: non_empty_lines false rest
    rw [hds, htake, hdrop, hends, htq]
    simp only [Bool.not_true, Bool.and_false, if_false]
    rw [hhash, hrstrip]
    have hne : line.isEmpty = false := by rw [hline]; rfl
    simp [hne]
  have hdr : dropRightN 3 (body ++ [q, q, q]) = body := by
    unfold dropRightN
    rw [List.length_append]
    have hlq : ([q, q, q] : Str).length = 3 := rfl
    rw [hlq]
    have hn : body.length + 3 - 3 = body.length := by omega
    rw [hn, List.take_left]
  have hgd : get_docstring line (non_empty_lines false rest) 0 =
      .ok (line, body, non_empty_lines false rest) := by
    have hstrip : stripIndent 0 line = some line := by simp [stripIndent]
    unfold get_docstring
    simp only [hstrip, List.drop_zero]
    rw [htake, hdrop]
    simp only [htq, hends, if_true]
    rw [hdr]
  unfold parse at hp
  simp only [hnel, hgd] at hp
  rcases hpl : ploop ((line :: non_empty_lines false rest).length + 1) (some line)
      (non_empty_lines false rest) [] [] [] [] [] with e | ⟨ver, mods, vars, funcs, clss⟩
  · rw [hpl] at hp; exact absurd hp (by simp)
  · rw [hpl] at hp
    simp only [Except.ok.injEq] at hp
    rw [← hp]

set_option maxRecDepth 10000 in
/-- C3 counterexample: the first line `'''  desc  '''` (a one-line module
docstring with inner whitespace) yields description `"  desc  "`, not the
trimmed `"desc"` the claim requires — the one-line path of `get_docstring`
does not strip. -/
theorem spec_c3_counterexample :
    parse [tq1 ++ "  desc  ".toList ++ tq1] =
      .ok ⟨"  desc  ".toList, [], [], [], [], []⟩ ∧
    ("  desc  ".toList : Str) ≠ "desc".toList :=
  ⟨by rfl, by decide⟩

set_option maxRecDepth 10000 in
/-- Witness for C3 (amended) at a concrete input: a double-quoted one-line
docstring with inner whitespace, returned verbatim. -/
theorem spec_c3_amended_witness :
    (ModuleTree.mk "  desc  ".toList [] [] [] [] []).description = "  desc  ".toList :=
  spec_c3_amended dqc ("  desc  ".toList) [] (ModuleTree.mk "  desc  ".toList [] [] [] [] [])
    (Or.inr rfl) (by decide) (by rfl)

/-- The multi-line docstring loop propagates the stream-exhaustion signal
when no remaining line carries a closing delimiter. -/
theorem ds_loop_error (indent : Nat) :
    ∀ (rest : List Str) (line out : Str),
      endsTriq line = false → (∀ l ∈ rest, endsTriq l = false) →
      ds_loop indent line out rest = .error () := by
  intro rest
  induction rest with
  | nil =>
    intro line out hline _
    unfold ds_loop
    simp [hline]
  | cons l ls ih =>
    intro line out hline hrest
    unfold ds_loop
    simp only [hline, Bool.false_eq_true, if_false]
    exact ih l _ (hrest l (List.mem_cons_self l ls))
      (fun x hx => hrest x (List.mem_cons_of_mem l hx))

/-- C4 counterexample: on the unclosed docstring `"""abc` with the stream
already exhausted, `get_docstring` raises the stream-exhaustion signal
(modelled `.error ()`, the uncaught `StopIteration` of source line 170),
discarding the accumulated partial text `abc` — it does not return the
partial text with a sentinel as the claim states. -/
theorem spec_c4_counterexample :
    get_docstring (tq2 ++ "abc".toList) [] 0 = .error () := by rfl

set_option maxRecDepth 10000 in
/-- C4 (amended): when a triple-quoted docstring is opened but no later line
ends with a closing delimiter, `get_docstring` propagates the
stream-exhaustion exception to its caller (discarding the accumulated
partial text); the callers catch it — `parse` on such a text returns the
tree with an empty description. -/
theorem spec_c4_amended :
    (∀ (line : Str) (lines : List Str) (indent : Nat) (t : Str),
       stripIndent indent line = some t →
       isTriq (t.take 3) = true →
       endsTriq (t.drop 3) = false →
       (∀ l ∈ lines, endsTriq l = false) →
       get_docstring line lines indent = .error ()) ∧
    parse [tq2 ++ "abc".toList] = .ok ⟨[], [], [], [], [], []⟩ := by
  constructor
  · intro line lines indent t hs htq3 hend hlines
    unfold get_docstring
    simp only [hs, htq3, hend, if_true, Bool.false_eq_true, if_false]
    cases lines with
    | nil => rfl
    | cons l ls =>
      exact ds_loop_error indent ls l _ (hlines l (List.mem_cons_self l ls))
        (fun x hx => hlines x (List.mem_cons_of_mem l hx))
  · rfl

/-- Witness for C4 (amended): a concrete unclosed docstring followed by one
more line without a closing delimiter. -/
theorem spec_c4_amended_witness :
    get_docstring (tq2 ++ "abc".toList) ["xy".toList] 0 = .error () :=
  spec_c4_amended.1 (tq2 ++ "abc".toList) ["xy".toList] 0 (tq2 ++ "abc".toList)
    (by rfl) (by decide) (by decide) (by decide)

set_option maxRecDepth 10000 in
/-- C5 counterexample: with the method written as the single line
`def m(self): pass`, the function-header regex matches with no closing `):`
at end of line, so `get_function` enters the multi-line-signature loop,
exhausts the stream and raises; `get_class` catches the exception having
never appended the method — the returned ClassSymbol has imports `["os"]`
and variable `x` but NO method `m`, refuting the claim. -/
theorem spec_c5_counterexample :
    get_class ("class C(object):".toList)
      ["    import os".toList, "    x = 5".toList, "    def m(self): pass".toList] 0 =
      .ok (none, some ⟨"C".toList, "object".toList, ["os".toList], [],
        [⟨"x".toList, "5".toList⟩], []⟩, []) ∧
    (ClassDict.mk "C".toList "object".toList ["os".toList] []
      [⟨"x".toList, "5".toList⟩] []).functions = [] :=
  ⟨by rfl, rfl⟩

set_option maxRecDepth 10000 in
/-- C5 (amended): for a class whose body contains `import os`, `x = 5` and a
method written as the header `def m(self):` followed by an indented `pass`
line, `get_class` returns a ClassSymbol with imported-module names `["os"]`,
one variable named `x`, and one method named `m` whose first positional
parameter is `self` (the parser does not special-case the first parameter);
collapsing the method onto the single line `def m(self): pass` instead loses
the method (see the counterexample). -/
theorem spec_c5_amended :
    get_class ("class C(object):".toList)
      ["    import os".toList, "    x = 5".toList, "    def m(self):".toList,
       "        pass".toList] 0 =
      .ok (none, some ⟨"C".toList, "object".toList, ["os".toList],
        [⟨"m".toList, ["self".toList], [], [], [], []⟩],
        [⟨"x".toList, "5".toList⟩], []⟩, []) ∧
    (FunctionDict.mk "m".toList ["self".toList] [] [] [] []).args.head? =
      some "self".toList :=
  ⟨by rfl, rfl⟩

/-- C6: a function header split across the two physical lines `def f(a,` and
` b):` parses to the same result as the one-line header `def f(a, b):`
followed by the same body lines — the multi-line-signature loop concatenates
the wrapped argument text before splitting, so the two calls are equal as
whole results (same FunctionSymbol: name, positional parameters, keyword
parameters, defaults, docstring, exceptions — and same remaining stream). -/
theorem spec_c6 : ∀ body : List Str,
    get_function ("def f(a,".toList) ((" b):".toList) :: body) 0 =
    get_function ("def f(a, b):".toList) body 0 := fun _ => rfl

/-- C7: for the header `def f(a, b=1, c="x"):` followed by any body lines,
the Function Parser produces positional parameters `["a"]` and keyword
parameters `[("b","1"), ("c","\"x\"")]` in declared order, the default
expressions captured verbatim as raw source text. -/
theorem spec_c7 : ∀ rest : List Str, ∃ (lopt : Option Str) (doc : Str)
    (excs : List Str) (rest2 : List Str),
    get_function ("def f(a, b=1, c=\"x\"):".toList) rest 0 =
      .ok (lopt, some ⟨"f".toList, ["a".toList], ["b".toList, "c".toList],
        ["1".toList, [dqc, 'x', dqc]], doc, excs⟩, rest2) ∧
    (["b".toList, "c".toList].zip ["1".toList, [dqc, 'x', dqc]] : List (Str × Str)) =
      [("b".toList, "1".toList), ("c".toList, [dqc, 'x', dqc])] := by
  intro rest
  have hred : get_function ("def f(a, b=1, c=\"x\"):".toList) rest 0 =
      (match body_scan rest with
       | (lopt, doc, excs, rest2) =>
         .ok (lopt, some ⟨"f".toList, ["a".toList], ["b".toList, "c".toList],
           ["1".toList, [dqc, 'x', dqc]], doc, excs⟩, rest2)) := rfl
  rcases hbs : body_scan rest with ⟨lopt, doc, excs, rest2⟩
  refine ⟨lopt, doc, excs, rest2, ?_, rfl⟩
  rw [hred, hbs]

/-- The classification loop appends a keyword and its default together, so
the two accumulated lists always have equal length. -/
theorem len_cons_match (kw : Option (Str × Str)) (ks ds : List Str) (h : ks.length = ds.length) :
    (match kw with | some (k, _) => k :: ks | none => ks).length =
    (match kw with | some (_, d) => d :: ds | none => ds).length := by
  cases kw with
  | none => exact h
  | some p => simp [h]

/-- For every token list, `classifyArgs` yields equally long keyword and
default lists. -/
theorem classifyArgs_len : ∀ toks : List Str,
    (classifyArgs toks).2.1.length = (classifyArgs toks).2.2.length := by
  intro toks
  induction toks with
  | nil => rfl
  | cons tok rest ih =>
    unfold classifyArgs
    rcases hc : classifyArgs rest with ⟨as_, ks, ds⟩
    rw [hc] at ih
    simp only [hc]
    exact len_cons_match _ ks ds ih

/-- C10: every FunctionSymbol produced by `get_function` — on any input,
including malformed or truncated ones — has keyword and default lists of
equal length, so the positionwise keyword/default pairing consumed
downstream is always well defined. -/
theorem spec_c10 : ∀ (line : Str) (lines : List Str) (indent : Nat)
    (lopt : Option Str) (d : FunctionDict) (rest2 : List Str),
    get_function line lines indent = .ok (lopt, some d, rest2) →
    d.keywords.length = d.defaults.length := by
  intro line lines indent lopt d rest2 h
  unfold get_function at h
  split at h <;> try (solve | (exfalso; simp at h))
  split at h <;> try (solve | (exfalso; simp at h))
  split at h <;> try (solve | (exfalso; simp at h))
  split at h <;> try (solve | (exfalso; simp at h))
  split at h <;> try (solve | (exfalso; simp at h))
  rename_i u heq
  cases hh : (if [')', ':'].isSuffixOf u then Except.ok (dropRightN 2 u, lines)
      else hdr_loop u lines) with
  | error e => simp only [hh] at h; exact absurd h (by simp)
  | ok p =>
    obtain ⟨allargs, rest⟩ := p
    simp only [hh] at h
    rcases hca : classifyArgs (splitComma allargs) with ⟨as_, ks, ds⟩
    rcases hbs : body_scan rest with ⟨lo, doc, excs, r2⟩
    simp only [hca, hbs, Except.ok.injEq, Prod.mk.injEq, Option.some.injEq] at h
    obtain ⟨-, hd, -⟩ := h
    subst hd
    have hlen := classifyArgs_len (splitComma allargs)
    rw [hca] at hlen
    exact hlen

/-- Witness for C10 at a concrete header with one keyword parameter. -/
theorem spec_c10_witness :
    (FunctionDict.mk "g".toList ["x".toList] ["y".toList] ["2".toList] [] []).keywords.length =
    (FunctionDict.mk "g".toList ["x".toList] ["y".toList] ["2".toList] [] []).defaults.length :=
  spec_c10 ("def g(x, y=2):".toList) [] 0 none
    (FunctionDict.mk "g".toList ["x".toList] ["y".toList] ["2".toList] [] []) [] (by rfl)

set_option maxRecDepth 10000 in
/-- C8 (code bug): on the one-line module `class C(x):` the class header
matches and the stream is then exhausted before the local `docstring` of
`get_class` is ever assigned; the `except StopIteration` handler (source
line 305) falls through to the `return` dict which reads the unassigned
local (line 314) — an `UnboundLocalError` that `parse` does not catch (it
catches only `StopIteration`), so an error outside the documented
TypeError/FileTypeError/IOError taxonomy escapes to the caller. -/
theorem spec_c8 :
    parse ["class C(x):".toList] = .error .nameError := by rfl

/-- C9 counterexample: for an undocumented function whose only positional
parameter is `self`, no line of the generated placeholder block mentions it
(the generator skips `self`, source line 872) — refuting the claim that each
positional parameter is listed. -/
theorem spec_c9_counterexample :
    (FunctionDict.mk "m".toList ["self".toList] [] [] [] []).docstring = [] ∧
    "self".toList ∈ (FunctionDict.mk "m".toList ["self".toList] [] [] [] []).args ∧
    ((mkFunctionDocstringGen (FunctionDict.mk "m".toList ["self".toList] [] [] [] [])
        0 true).1.filter (fun l => containsSub l ("self".toList))) = [] :=
  ⟨rfl, by decide, by decide⟩

/-- C9 (amended): for a FunctionSymbol with empty docstring, the generator
emits the placeholder block (and no warning) containing, in declared order,
one line for each positional parameter other than `self`, one line for each
keyword parameter with its default, and one line for each raised-exception
identifier; for a FunctionSymbol with non-empty docstring it produces no
lines and signals the "already has a docstring" warning (a print, not an
error), so the concatenated result is empty. -/
theorem spec_c9_amended : ∀ (func : FunctionDict) (indent : Nat),
    (func.docstring = [] →
      mkFunctionDocstringGen func indent true = (mk_fd_lines func indent, none) ∧
      ((func.args.filter (fun a => a ≠ "self".toList)).map (argLine indent)).Sublist
        (mk_fd_lines func indent) ∧
      ((func.keywords.zip func.defaults).map (kwLine indent)).Sublist
        (mk_fd_lines func indent) ∧
      (func.exceptions.map (excLine indent)).Sublist (mk_fd_lines func indent)) ∧
    (func.docstring ≠ [] →
      mkFunctionDocstringGen func indent true = ([], some (warnMsg func.name)) ∧
      make_function_docstring func indent true = []) := by
  intro func indent
  constructor
  · intro hd
    refine ⟨by simp [mkFunctionDocstringGen, hd], ?_, ?_, ?_⟩
    · unfold mk_fd_lines
      simp only [List.append_assoc]
      exact (List.sublist_append_left _ _).trans (List.sublist_append_right _ _)
    · unfold mk_fd_lines
      simp only [List.append_assoc]
      exact ((List.sublist_append_left _ _).trans
        (List.sublist_append_right _ _)).trans (List.sublist_append_right _ _)
    · unfold mk_fd_lines
      simp only [List.append_assoc]
      exact ((((List.sublist_append_left _ _).trans
        (List.sublist_append_right _ _)).trans
        (List.sublist_append_right _ _)).trans
        (List.sublist_append_right _ _)).trans (List.sublist_append_right _ _)
  · intro hd
    constructor
    · simp [mkFunctionDocstringGen, hd]
    · simp [make_function_docstring, mkFunctionDocstringGen, hd]

/-- Witness for C9 (amended) at a concrete undocumented function. -/
theorem spec_c9_amended_witness :
    mkFunctionDocstringGen (FunctionDict.mk "h".toList ["x".toList] [] [] [] []) 0 true =
      (mk_fd_lines (FunctionDict.mk "h".toList ["x".toList] [] [] [] []) 0, none) ∧
    (((FunctionDict.mk "h".toList ["x".toList] [] [] [] []).args.filter
        (fun a => a ≠ "self".toList)).map (argLine 0)).Sublist
      (mk_fd_lines (FunctionDict.mk "h".toList ["x".toList] [] [] [] []) 0) ∧
    ((((FunctionDict.mk "h".toList ["x".toList] [] [] [] []).keywords.zip
        (FunctionDict.mk "h".toList ["x".toList] [] [] [] []).defaults).map
        (kwLine 0)).Sublist
      (mk_fd_lines (FunctionDict.mk "h".toList ["x".toList] [] [] [] []) 0)) ∧
    ((FunctionDict.mk "h".toList ["x".toList] [] [] [] []).exceptions.map
        (excLine 0)).Sublist
      (mk_fd_lines (FunctionDict.mk "h".toList ["x".toList] [] [] [] []) 0) :=
  (spec_c9_amended (FunctionDict.mk "h".toList ["x".toList] [] [] [] []) 0).1 rfl
